import Mathlib

/-!
Verification of the Stage-5 light-curve fitting core
(`eureka/S5_lightcurve_fitting/fitters.py`).

Modelling conventions used throughout this development:

* IEEE-754 doubles are modelled by `ℚ`.  The only non-finite value produced
  on the verified paths is `-np.inf` (in the likelihood and the prior); it is
  modelled by the dedicated codomain `FVal` below.  `np.inf` bounds appear
  only as the default bounds of the parameter-flattening step and are
  modelled there by the extended type `XQ`.
* `np.log`, `np.sqrt` and the model evaluation `model.eval` are taken as
  abstract function arguments: no verified claim depends on their analytic
  properties, only on how the fitters plumb them together.
* numpy element-wise arithmetic on equal-length 1-D arrays is modelled by
  `List.zip` + `List.map`; shape-mismatch failures (numpy broadcasting
  errors) are modelled by `Option` where a claim is about them.
* Randomness (`np.random.randn`) is externalised: the noise draws are an
  explicit input list.
* Python exceptions are modelled by `Except`.
-/

namespace EurekaS5

/-- Float values arising in the sampler objective: a finite value or
`-np.inf`.  `+inf` and NaN never arise on the traced paths (the only
non-finite constant the source ever adds is `-np.inf`). -/
inductive FVal
  | ninf : FVal
  | fin : ℚ → FVal
  deriving DecidableEq

/-- Float addition restricted to `{finite} ∪ {-∞}`, on which it is closed:
`finite + finite` is finite, and any sum with a `-∞` operand is `-∞`
(no NaN can arise because `+∞` is never an operand). -/
def FVal.add : FVal → FVal → FVal
  | FVal.fin a, FVal.fin b => FVal.fin (a + b)
  | _, _ => FVal.ninf

/-! ## Likelihood and prior (`emceefitter.ln_like` / `lnprior`,
`dynestyfitter.ln_like` / `lnprior`; the two copies are textually
identical in the source, lines 246-265 and 441-460). -/

/-- Number of components of `theta` strictly below the lower bound:
`len(ilow[0])` where `ilow = np.where(theta < pmin)`. -/
def nOutLow (theta pmin : List ℚ) : Nat :=
  ((theta.zip pmin).filter (fun p => decide (p.1 < p.2))).length

/-- Number of components of `theta` strictly above the upper bound:
`len(ihi[0])` where `ihi = np.where(theta > pmax)`. -/
def nOutHigh (theta pmax : List ℚ) : Nat :=
  ((theta.zip pmax).filter (fun p => decide (p.2 < p.1))).length

/-- The in-place clip `theta[ilow] = pmin[ilow]; theta[ihi] = pmax[ihi]`.
Both index sets are computed from the original `theta`, and the high
assignment is executed second, so when `pmin_i > pmax_i` both fire and the
upper bound wins. -/
def clipTheta (theta pmin pmax : List ℚ) : List ℚ :=
  (theta.zip (pmin.zip pmax)).map (fun p =>
    if p.2.2 < p.1 then p.2.2 else if p.1 < p.2.1 then p.2.1 else p.1)

/-- The finite Gaussian log-likelihood value
`-0.5 * np.sum((residuals/unc)**2 + np.log(2*pi*unc**2))` with
`residuals = lc.flux - model_lc`; `log` abstracts `np.log` and `twoPi`
abstracts the float constant `2.0 * np.pi`. -/
def gaussLnLike (log : ℚ → ℚ) (twoPi : ℚ) (flux modelLC unc : List ℚ) : ℚ :=
  let residuals := (flux.zip modelLC).map (fun p => p.1 - p.2)
  (-(1 : ℚ) / 2) *
    ((residuals.zip unc).map (fun p => (p.1 / p.2) ^ 2 + log (twoPi * p.2 ^ 2))).sum

/-- `ln_like(theta, lc, model, pmin, pmax)` of the emcee and dynesty
backends: clip `theta` in place, evaluate the Gaussian log-likelihood at the
clipped vector, then override the result with `-np.inf` if
`len(ilow[0]) + len(ihi[0]) > 0`, i.e. if the original `theta` had any
out-of-bounds component.  `model` abstracts
`model.update(theta, freenames); model.eval()` as a function of `theta`. -/
def ln_like (model : List ℚ → List ℚ) (log : ℚ → ℚ) (twoPi : ℚ)
    (flux unc theta pmin pmax : List ℚ) : FVal :=
  let nlow := nOutLow theta pmin
  let nhi := nOutHigh theta pmax
  let theta2 := clipTheta theta pmin pmax
  let v := gaussLnLike log twoPi flux (model theta2) unc
  if 0 < nlow + nhi then FVal.ninf else FVal.fin v

/-- One iteration of the `lnprior` loop: when
`np.logical_or(theta[i] < pmin[i], theta[i] > pmax[i])` holds, execute
`lnprior_prob += -np.inf`. -/
def lnpriorStep (acc : FVal) (p : ℚ × ℚ × ℚ) : FVal :=
  if p.1 < p.2.1 ∨ p.2.2 < p.1 then FVal.add acc FVal.ninf else acc

/-- `lnprior(theta, pmin, pmax)` of the emcee and dynesty backends: start
from the float `0.` and run the accumulation loop over all indices. -/
def lnprior (theta pmin pmax : List ℚ) : FVal :=
  (theta.zip (pmin.zip pmax)).foldl lnpriorStep (FVal.fin 0)

/-! ## Reduced chi-square conventions (`lsqfitter` line 125-126,
`emceefitter` line 335-336, `dynestyfitter` line 543-544). -/

/-- `chi2 = np.sum((residuals / lc.unc) ** 2)`. -/
def chi2 (residuals unc : List ℚ) : ℚ :=
  ((residuals.zip unc).map (fun p => (p.1 / p.2) ^ 2)).sum

/-- `lsqfitter`: `chi2red = chi2 / (len(lc.unc) - len(freenames))`. -/
def lsq_chi2red (residuals unc : List ℚ) (nfree : Nat) : ℚ :=
  chi2 residuals unc / ((unc.length : ℚ) - (nfree : ℚ))

/-- `emceefitter` and `dynestyfitter`: `chi2red = chi2 / (len(lc.unc))`. -/
def mcmc_chi2red (residuals unc : List ℚ) : ℚ :=
  chi2 residuals unc / (unc.length : ℚ)

/-! ## Bridging lemmas between index-wise bound conditions and the
zip-based list computations. -/

lemma nOutLow_eq_zero_iff : ∀ (theta pmin : List ℚ), pmin.length = theta.length →
    (nOutLow theta pmin = 0 ↔
      ∀ i, i < theta.length → pmin.getD i 0 ≤ theta.getD i 0)
  | [], [], _ => by simp [nOutLow]
  | [], p :: ps, h => by simp at h
  | t :: ts, [], h => by simp at h
  | t :: ts, p :: ps, h => by
    have ih := nOutLow_eq_zero_iff ts ps (by simpa using h)
    by_cases hc : t < p
    · simp only [nOutLow, List.zip_cons_cons, List.filter_cons, decide_eq_true_eq, hc,
        if_pos, List.length_cons]
      constructor
      · intro h
        exact absurd h (Nat.succ_ne_zero _)
      · intro hall
        have h0 := hall 0 (by simp)
        simp only [List.getD_cons_zero] at h0
        exact absurd h0 (not_le.mpr hc)
    · simp only [nOutLow, List.zip_cons_cons, List.filter_cons, decide_eq_true_eq, hc,
        if_neg, not_false_iff]
      rw [show ((ts.zip ps).filter (fun p => decide (p.1 < p.2))).length = nOutLow ts ps from rfl]
      rw [ih]
      constructor
      · intro hall i hi
        cases i with
        | zero => simpa using not_lt.mp hc
        | succ j => simpa using hall j (by simpa using hi)
      · intro hall i hi
        simpa using hall (i + 1) (by simpa using hi)

lemma nOutHigh_eq_zero_iff : ∀ (theta pmax : List ℚ), pmax.length = theta.length →
    (nOutHigh theta pmax = 0 ↔
      ∀ i, i < theta.length → theta.getD i 0 ≤ pmax.getD i 0)
  | [], [], _ => by simp [nOutHigh]
  | [], p :: ps, h => by simp at h
  | t :: ts, [], h => by simp at h
  | t :: ts, p :: ps, h => by
    have ih := nOutHigh_eq_zero_iff ts ps (by simpa using h)
    by_cases hc : p < t
    · simp only [nOutHigh, List.zip_cons_cons, List.filter_cons, decide_eq_true_eq, hc,
        if_pos, List.length_cons]
      constructor
      · intro h
        exact absurd h (Nat.succ_ne_zero _)
      · intro hall
        have h0 := hall 0 (by simp)
        simp only [List.getD_cons_zero] at h0
        exact absurd h0 (not_le.mpr hc)
    · simp only [nOutHigh, List.zip_cons_cons, List.filter_cons, decide_eq_true_eq, hc,
        if_neg, not_false_iff]
      rw [show ((ts.zip ps).filter (fun p => decide (p.2 < p.1))).length = nOutHigh ts ps from rfl]
      rw [ih]
      constructor
      · intro hall i hi
        cases i with
        | zero => simpa using not_lt.mp hc
        | succ j => simpa using hall j (by simpa using hi)
      · intro hall i hi
        simpa using hall (i + 1) (by simpa using hi)

lemma clipTheta_eq_self : ∀ (theta pmin pmax : List ℚ),
    pmin.length = theta.length → pmax.length = theta.length →
    (∀ i, i < theta.length →
      pmin.getD i 0 ≤ theta.getD i 0 ∧ theta.getD i 0 ≤ pmax.getD i 0) →
    clipTheta theta pmin pmax = theta
  | [], _, _, _, _, _ => by simp [clipTheta]
  | t :: ts, [], _, h, _, _ => by simp at h
  | t :: ts, p :: ps, [], _, h, _ => by simp at h
  | t :: ts, p :: ps, q :: qs, h1, h2, hall => by
    have h0 := hall 0 (by simp)
    simp only [List.getD_cons_zero] at h0
    have ihall : ∀ i, i < ts.length →
        ps.getD i 0 ≤ ts.getD i 0 ∧ ts.getD i 0 ≤ qs.getD i 0 := by
      intro i hi
      simpa using hall (i + 1) (by simpa using hi)
    have ih := clipTheta_eq_self ts ps qs (by simpa using h1) (by simpa using h2) ihall
    simp only [clipTheta, List.zip_cons_cons, List.map_cons] at ih ⊢
    rw [if_neg (not_lt.mpr h0.2), if_neg (not_lt.mpr h0.1), ih]

/-- C1: for every parameter vector, light curve and model, `ln_like` returns
`-np.inf` whenever at least one component of the original unclipped `theta`
is outside its `[pmin, pmax]` interval — even though `theta` is first
clipped in place and the clipped vector has a finite Gaussian
log-likelihood, which the override discards — and returns the finite value
`-0.5 * sum((residual_i/sigma_i)^2 + ln(2*pi*sigma_i^2))` evaluated at the
(unchanged) `theta` when every component is within bounds. -/
theorem ln_like_bounds_rejection (model : List ℚ → List ℚ) (log : ℚ → ℚ) (twoPi : ℚ)
    (flux unc theta pmin pmax : List ℚ)
    (hmin : pmin.length = theta.length) (hmax : pmax.length = theta.length) :
    ((∃ i, i < theta.length ∧
        (theta.getD i 0 < pmin.getD i 0 ∨ pmax.getD i 0 < theta.getD i 0)) →
      ln_like model log twoPi flux unc theta pmin pmax = FVal.ninf) ∧
    ((∀ i, i < theta.length →
        pmin.getD i 0 ≤ theta.getD i 0 ∧ theta.getD i 0 ≤ pmax.getD i 0) →
      ln_like model log twoPi flux unc theta pmin pmax
        = FVal.fin (gaussLnLike log twoPi flux (model theta) unc)) := by
  constructor
  · rintro ⟨i, hi, hoob⟩
    have hpos : 0 < nOutLow theta pmin + nOutHigh theta pmax := by
      rcases hoob with hlo | hhi
      · have : nOutLow theta pmin ≠ 0 := by
          intro h0
          exact absurd ((nOutLow_eq_zero_iff theta pmin hmin).mp h0 i hi) (not_le.mpr hlo)
        omega
      · have : nOutHigh theta pmax ≠ 0 := by
          intro h0
          exact absurd ((nOutHigh_eq_zero_iff theta pmax hmax).mp h0 i hi) (not_le.mpr hhi)
        omega
    simp only [ln_like, if_pos hpos]
  · intro hall
    have hlo : nOutLow theta pmin = 0 :=
      (nOutLow_eq_zero_iff theta pmin hmin).mpr (fun i hi => (hall i hi).1)
    have hhi : nOutHigh theta pmax = 0 :=
      (nOutHigh_eq_zero_iff theta pmax hmax).mpr (fun i hi => (hall i hi).2)
    have hclip := clipTheta_eq_self theta pmin pmax hmin hmax hall
    simp only [ln_like, hlo, hhi, hclip, Nat.add_zero, lt_irrefl, if_neg, not_false_iff,
      Nat.lt_irrefl]

/-- Witness for C1 at concrete inputs: `theta = [2]` with bounds `[0, 1]` is
rejected with `-inf`, and `theta = [1]` with bounds `[0, 2]` yields the
finite Gaussian value. -/
theorem ln_like_bounds_rejection_w :
    ln_like (fun t => t) (fun q => q) 6 [1] [1] [2] [0] [1] = FVal.ninf ∧
    ln_like (fun t => t) (fun q => q) 6 [1] [1] [1] [0] [2]
      = FVal.fin (gaussLnLike (fun q => q) 6 [1] [1] [1]) :=
  ⟨(ln_like_bounds_rejection (fun t => t) (fun q => q) 6 [1] [1] [2] [0] [1]
      (by decide) (by decide)).1 ⟨0, by decide⟩,
   (ln_like_bounds_rejection (fun t => t) (fun q => q) 6 [1] [1] [1] [0] [2]
      (by decide) (by decide)).2 (by decide)⟩

lemma lnprior_foldl_ninf : ∀ l : List (ℚ × ℚ × ℚ), l.foldl lnpriorStep FVal.ninf = FVal.ninf
  | [] => rfl
  | a :: l => by
    have h : lnpriorStep FVal.ninf a = FVal.ninf := by
      unfold lnpriorStep
      split <;> rfl
    rw [List.foldl_cons, h, lnprior_foldl_ninf l]

lemma lnprior_in_bounds : ∀ (theta pmin pmax : List ℚ),
    pmin.length = theta.length → pmax.length = theta.length →
    (∀ i, i < theta.length →
      pmin.getD i 0 ≤ theta.getD i 0 ∧ theta.getD i 0 ≤ pmax.getD i 0) →
    lnprior theta pmin pmax = FVal.fin 0
  | [], _, _, _, _, _ => by simp [lnprior]
  | t :: ts, [], _, h, _, _ => by simp at h
  | t :: ts, p :: ps, [], _, h, _ => by simp at h
  | t :: ts, p :: ps, q :: qs, h1, h2, hall => by
    have h0 := hall 0 (by simp)
    simp only [List.getD_cons_zero] at h0
    have hstep : lnpriorStep (FVal.fin 0) (t, p, q) = FVal.fin 0 := by
      unfold lnpriorStep
      rw [if_neg]
      push_neg
      exact ⟨h0.1, h0.2⟩
    have ih := lnprior_in_bounds ts ps qs (by simpa using h1) (by simpa using h2)
      (fun i hi => by simpa using hall (i + 1) (by simpa using hi))
    simp only [lnprior, List.zip_cons_cons, List.foldl_cons, hstep] at ih ⊢
    exact ih

lemma lnprior_out_of_bounds : ∀ (theta pmin pmax : List ℚ),
    pmin.length = theta.length → pmax.length = theta.length →
    (∃ i, i < theta.length ∧
      (theta.getD i 0 < pmin.getD i 0 ∨ pmax.getD i 0 < theta.getD i 0)) →
    lnprior theta pmin pmax = FVal.ninf
  | [], _, _, _, _, hex => by
    rcases hex with ⟨i, hi, _⟩
    simp at hi
  | t :: ts, [], _, h, _, _ => by simp at h
  | t :: ts, p :: ps, [], _, h, _ => by simp at h
  | t :: ts, p :: ps, q :: qs, h1, h2, hex => by
    by_cases hc : t < p ∨ q < t
    · have hstep : lnpriorStep (FVal.fin 0) (t, p, q) = FVal.ninf := by
        unfold lnpriorStep
        rw [if_pos hc]
        rfl
      simp only [lnprior, List.zip_cons_cons, List.foldl_cons, hstep]
      exact lnprior_foldl_ninf _
    · have hstep : lnpriorStep (FVal.fin 0) (t, p, q) = FVal.fin 0 := by
        unfold lnpriorStep
        rw [if_neg hc]
      rcases hex with ⟨i, hi, hoob⟩
      cases i with
      | zero =>
        simp only [List.getD_cons_zero] at hoob
        exact absurd hoob hc
      | succ j =>
        have ih := lnprior_out_of_bounds ts ps qs (by simpa using h1) (by simpa using h2)
          ⟨j, by simpa using hi, by simpa using hoob⟩
        simp only [lnprior, List.zip_cons_cons, List.foldl_cons, hstep] at ih ⊢
        exact ih

/-- C4: `lnprior` returns exactly the float `0.0` when every component of
`theta` satisfies `lower_i <= theta_i <= upper_i` (boundary-equal values are
in-bounds because the source comparisons are strict), and exactly `-np.inf`
(a single `-inf`: the accumulator only ever adds `-inf` to a finite or
`-inf` value, which can never produce NaN or a finite penalty) when at
least one component is strictly out of bounds. -/
theorem lnprior_zero_or_ninf (theta pmin pmax : List ℚ)
    (hmin : pmin.length = theta.length) (hmax : pmax.length = theta.length) :
    ((∀ i, i < theta.length →
        pmin.getD i 0 ≤ theta.getD i 0 ∧ theta.getD i 0 ≤ pmax.getD i 0) →
      lnprior theta pmin pmax = FVal.fin 0) ∧
    ((∃ i, i < theta.length ∧
        (theta.getD i 0 < pmin.getD i 0 ∨ pmax.getD i 0 < theta.getD i 0)) →
      lnprior theta pmin pmax = FVal.ninf) :=
  ⟨lnprior_in_bounds theta pmin pmax hmin hmax,
   lnprior_out_of_bounds theta pmin pmax hmin hmax⟩

/-- Witness for C4 at concrete inputs, with a boundary-exact value:
`theta = [0]` with bounds exactly `[0, 0]` is in-bounds and yields `0.0`,
while `theta = [1]` with bounds `[2, 3]` yields `-inf`. -/
theorem lnprior_zero_or_ninf_w :
    lnprior [0] [0] [0] = FVal.fin 0 ∧ lnprior [1] [2] [3] = FVal.ninf :=
  ⟨(lnprior_zero_or_ninf [0] [0] [0] (by decide) (by decide)).1 (by decide),
   (lnprior_zero_or_ninf [1] [2] [3] (by decide) (by decide)).2 ⟨0, by decide⟩⟩

/-- C3: for identical residuals, identical uncertainties and identical
`n_points = len(lc.unc)`, the least-squares backend divides `chi2` by
`n_points - n_free_params` while the ensemble and nested backends divide by
`n_points`, so whenever `n_free_params < n_points` the least-squares value
equals the ensemble/nested value times `n_points / (n_points - n_free_params)`. -/
theorem chi2red_asymmetry (residuals unc : List ℚ) (nfree : Nat)
    (h : nfree < unc.length) :
    lsq_chi2red residuals unc nfree
      = ((unc.length : ℚ) / ((unc.length : ℚ) - (nfree : ℚ))) *
          mcmc_chi2red residuals unc := by
  have hn : (0 : ℚ) < (unc.length : ℚ) := by
    have : 0 < unc.length := Nat.lt_of_le_of_lt (Nat.zero_le _) h
    exact_mod_cast this
  have hd : (unc.length : ℚ) - (nfree : ℚ) ≠ 0 := by
    have : (nfree : ℚ) < (unc.length : ℚ) := by exact_mod_cast h
    exact sub_ne_zero_of_ne (ne_of_gt this)
  unfold lsq_chi2red mcmc_chi2red
  field_simp
  ring

/-- Witness for C3: residuals `[1]`, uncertainties `[1]`, one data point and
zero free parameters. -/
theorem chi2red_asymmetry_w :
    lsq_chi2red [1] [1] 0
      = (((1 : ℚ)) / ((1 : ℚ) - (0 : ℚ))) * mcmc_chi2red [1] [1] := by
  have h := chi2red_asymmetry [1] [1] 0 (by decide)
  simpa using h

/-! ## Ensemble-backend walker initialisation (`emceefitter` lines 272-286). -/

/-- The hard-coded per-parameter step sizes:
`step_size = np.array([5e-3, 5e-3, 1e-1, 5e-3, 1e-2, 1e-2])`. -/
def hardStepSize : List ℚ := [5/1000, 5/1000, 1/10, 5/1000, 1/100, 1/100]

/-- The metadata fields the emcee backend reads, plus the configured
step-size vector offered by the configuration contract (spec section 6),
which the source never reads. -/
structure Meta where
  run_nwalkers : Nat
  run_nsteps : Nat
  run_nburn : Nat
  step_size_cfg : List ℚ
  deriving DecidableEq

/-- The step-size vector the emcee backend actually uses: the hard-coded
constant, whatever the metadata (in particular whatever `step_size_cfg`)
says. -/
def emceeStepSize (_m : Meta) : List ℚ := hardStepSize

/-- `ndim = len(step_size)`. -/
def emceeNdim (m : Meta) : Nat := (emceeStepSize m).length

/-- The indices of the per-parameter median extraction loop:
`for i in range(len(step_size))`. -/
def emceeMedianIndices (m : Meta) : List Nat := List.range (emceeStepSize m).length

/-- Test whether one walker position is fully in bounds:
`all((pmin <= ii) & (ii <= pmax))`. -/
def walkerInBounds (pmin pmax pw : List ℚ) : Bool :=
  (pw.zip (pmin.zip pmax)).all (fun q => decide (q.2.1 ≤ q.1) && decide (q.1 ≤ q.2.2))

/-- Boolean-mask indexing `pos[mask]` on a 1-D list of rows. -/
def maskFilter (pos : List (List ℚ)) (mask : List Bool) : List (List ℚ) :=
  ((pos.zip mask).filter (fun p => p.2)).map (fun p => p.1)

/-- The initial walker draws
`pos = np.array([freepars + np.array(step_size)*np.random.randn(ndim) for i in range(nwalkers)])`,
with the Gaussian draws `noise` supplied externally (one row per walker). -/
def drawWalkers (m : Meta) (freepars : List ℚ) (noise : List (List ℚ)) :
    List (List ℚ) :=
  noise.map (fun z =>
    (freepars.zip ((emceeStepSize m).zip z)).map (fun p => p.1 + p.2.1 * p.2.2))

/-- The arguments handed to `emcee.EnsembleSampler(nwalkers, ndim, ...)` and
`sampler.run_mcmc(pos, ...)`. -/
structure SamplerCall where
  nwalkers : Nat
  ndim : Nat
  pos : List (List ℚ)
  deriving DecidableEq

/-- Walker initialisation of the emcee backend: draw the positions, build
the in-bounds mask (`out_of_range` in the source, despite its name), keep
`pos = pos[out_of_range]`, and set `nwalkers = sum(out_of_range)` before
constructing the sampler. -/
def emceeInitSampler (m : Meta) (pmin pmax freepars : List ℚ)
    (noise : List (List ℚ)) : SamplerCall :=
  let pos := drawWalkers m freepars noise
  let mask := pos.map (walkerInBounds pmin pmax)
  SamplerCall.mk (mask.count true) (emceeStepSize m).length (maskFilter pos mask)

lemma maskFilter_map_self (f : List ℚ → Bool) :
    ∀ l : List (List ℚ), maskFilter l (l.map f) = l.filter f
  | [] => rfl
  | a :: l => by
    have ih := maskFilter_map_self f l
    cases hfa : f a
    · simp only [maskFilter, List.map_cons, List.zip_cons_cons, List.filter_cons, hfa,
        Bool.false_eq_true, if_false]
      exact ih
    · simp only [maskFilter, List.map_cons, List.zip_cons_cons, List.filter_cons, hfa,
        if_true, List.map_cons]
      exact congrArg (List.cons a) ih

lemma count_true_map (f : List ℚ → Bool) :
    ∀ l : List (List ℚ), (l.map f).count true = (l.filter f).length
  | [] => rfl
  | a :: l => by
    have ih := count_true_map f l
    by_cases hfa : f a = true
    · simp [List.count_cons, List.filter_cons, hfa, ih]
    · simp [List.count_cons, List.filter_cons, eq_false_of_ne_true hfa, ih]

/-- C5: after drawing the initial walker positions by Gaussian perturbation
of the least-squares solution, every draw with any component out of bounds
is discarded (never re-drawn: the kept positions are exactly the in-bounds
draws, in order), and the sampler is constructed with an effective
`nwalkers` exactly equal to the number of fully in-bounds draws. -/
theorem emcee_walker_filter_count (m : Meta) (pmin pmax freepars : List ℚ)
    (noise : List (List ℚ)) :
    (emceeInitSampler m pmin pmax freepars noise).pos
        = (drawWalkers m freepars noise).filter (walkerInBounds pmin pmax) ∧
    (emceeInitSampler m pmin pmax freepars noise).nwalkers
        = ((drawWalkers m freepars noise).filter (walkerInBounds pmin pmax)).length ∧
    ∀ p ∈ (emceeInitSampler m pmin pmax freepars noise).pos,
      walkerInBounds pmin pmax p = true := by
  have h1 : (emceeInitSampler m pmin pmax freepars noise).pos
      = (drawWalkers m freepars noise).filter (walkerInBounds pmin pmax) :=
    maskFilter_map_self _ _
  refine ⟨h1, count_true_map _ _, ?_⟩
  intro p hp
  rw [h1] at hp
  exact List.of_mem_filter hp

/-! ## Light-curve state and the effect each backend has on it
(`lsqfitter` lines 82-142, `emceefitter` lines 201-244, `dynestyfitter`
lines 378-423, `lmfitter` lines 622-628).  The fitting engines themselves
(`lsq.minimize`, the model's `update`/`eval`) are abstracted as function
arguments; the embedding traces what the fitters do to `lc.unc`, which
sub-fitter they call (event `callLsq`), and where they execute
`lc.unc *= np.sqrt(chi2red)` (event `rescaleUnc`). -/

structure LightCurve where
  time : List ℚ
  flux : List ℚ
  unc : Option (List ℚ)
  deriving DecidableEq

inductive FitEvent
  | callLsq : FitEvent
  | rescaleUnc : FitEvent
  deriving DecidableEq

/-- The outcome of `lsqfitter` that later stages consume: the light curve as
it stood when `lsq.minimize` ran (after the uncertainty default), the best
fit parameters, and `chi2red`. -/
structure LsqRun where
  lcFit : LightCurve
  fit_params : List ℚ
  chi2red : ℚ
  deriving DecidableEq

/-- The uncertainty default `if lc.unc is None: lc.unc = np.sqrt(lc.flux)`
(this exact statement occurs in `lsqfitter`, `emceefitter` and
`dynestyfitter`). -/
def lsqDefaultUnc (sqrt : ℚ → ℚ) (lc : LightCurve) : LightCurve :=
  match lc.unc with
  | none => LightCurve.mk lc.time lc.flux (some (lc.flux.map sqrt))
  | some _ => lc

/-- `lsqfitter`: default the uncertainty, run `lsq.minimize` (abstracted as
`minimize`), evaluate the model at the fitted parameters (abstracted as
`model`), and compute `chi2red = chi2 / (len(lc.unc) - len(freenames))`. -/
def lsqfitterE (model : List ℚ → List ℚ) (minimize : LightCurve → List ℚ)
    (sqrt : ℚ → ℚ) (nfree : Nat) (lc : LightCurve) : LsqRun :=
  let lc1 := lsqDefaultUnc sqrt lc
  let fp := minimize lc1
  let modelLC := model fp
  let residuals := (lc1.flux.zip modelLC).map (fun p => p.1 - p.2)
  let u := lc1.unc.getD []
  LsqRun.mk lc1 fp (chi2 residuals u / ((u.length : ℚ) - (nfree : ℚ)))

/-- The uncertainty rescaling `lc.unc *= np.sqrt(lsq_sol.chi2red)`. -/
def rescaleLC (sqrt : ℚ → ℚ) (c2r : ℚ) (lc : LightCurve) : LightCurve :=
  LightCurve.mk lc.time lc.flux (lc.unc.map (fun u => u.map (fun x => x * sqrt c2r)))

/-- The light-curve state when a sampling backend starts its sampler,
together with the trace of calls/rescales it performed before that. -/
structure SamplerFit where
  lcSample : LightCurve
  events : List FitEvent
  deriving DecidableEq

/-- `emceefitter` up to the sampler start: call `lsqfitter` (event
`callLsq`), execute `lc.unc *= np.sqrt(lsq_sol.chi2red)` (event
`rescaleUnc`), then hit the dead `if lc.unc is None` default again. -/
def emceefitterE (model : List ℚ → List ℚ) (minimize : LightCurve → List ℚ)
    (sqrt : ℚ → ℚ) (nfree : Nat) (lc : LightCurve) : SamplerFit :=
  let r := lsqfitterE model minimize sqrt nfree lc
  let lc2 := rescaleLC sqrt r.chi2red r.lcFit
  let lc3 := lsqDefaultUnc sqrt lc2
  SamplerFit.mk lc3 [FitEvent.callLsq, FitEvent.rescaleUnc]

/-- `dynestyfitter` up to the sampler start: textually the same prologue as
`emceefitter` (call `lsqfitter`, rescale the uncertainty once, dead default). -/
def dynestyfitterE (model : List ℚ → List ℚ) (minimize : LightCurve → List ℚ)
    (sqrt : ℚ → ℚ) (nfree : Nat) (lc : LightCurve) : SamplerFit :=
  let r := lsqfitterE model minimize sqrt nfree lc
  let lc2 := rescaleLC sqrt r.chi2red r.lcFit
  let lc3 := lsqDefaultUnc sqrt lc2
  SamplerFit.mk lc3 [FitEvent.callLsq, FitEvent.rescaleUnc]

inductive PyErr
  | unboundLocal : PyErr
  deriving DecidableEq

/-- The data `lmfitter` hands to `lcmodel.fit`: the weight vector
`1/uncertainty` and the (untouched) light curve. -/
structure LmFit where
  weights : List ℚ
  lcOut : LightCurve
  deriving DecidableEq

/-- `lmfitter`, lines 622-628: the local variable `uncertainty` is assigned
(to `np.ones(len(lc.flux))`) only in the `lc.unc is None` branch, yet
`weights=1/uncertainty` is evaluated unconditionally, so a set uncertainty
raises `UnboundLocalError` before any fitting.  `lmfitter` never calls
`lsqfitter`, never rescales `lc.unc`, and never writes `lc.unc`; its trace
of `FitEvent`s is empty on both paths. -/
def lmfitterE (lc : LightCurve) : List FitEvent × Except PyErr LmFit :=
  match lc.unc with
  | none =>
    let uncertainty := List.replicate lc.flux.length (1 : ℚ)
    ([], Except.ok (LmFit.mk (uncertainty.map (fun x => 1 / x)) lc))
  | some _ => ([], Except.error PyErr.unboundLocal)

lemma lsqfitterE_unc_isSome (model : List ℚ → List ℚ) (minimize : LightCurve → List ℚ)
    (sqrt : ℚ → ℚ) (nfree : Nat) (lc : LightCurve) :
    ∃ u, (lsqfitterE model minimize sqrt nfree lc).lcFit.unc = some u := by
  unfold lsqfitterE lsqDefaultUnc
  cases h : lc.unc with
  | none => exact ⟨lc.flux.map sqrt, by simp [h]⟩
  | some u => exact ⟨u, by simp [h]⟩

/-- C2 (amended): the ensemble and nested-sampling backends each first
invoke the least-squares backend and then multiply `lc.uncertainty`
elementwise by `sqrt(chi2_reduced)` of that solution, exactly once — their
event trace is exactly `[callLsq, rescaleUnc]` and the light curve they
sample carries the rescaled uncertainty — whereas the general nonlinear
lmfit backend performs neither action: its trace contains no `callLsq` and
no `rescaleUnc` event on either of its paths. -/
theorem uncRescale_backends (model : List ℚ → List ℚ) (minimize : LightCurve → List ℚ)
    (sqrt : ℚ → ℚ) (nfree : Nat) (lc : LightCurve) :
    (emceefitterE model minimize sqrt nfree lc).events
        = [FitEvent.callLsq, FitEvent.rescaleUnc] ∧
    (dynestyfitterE model minimize sqrt nfree lc).events
        = [FitEvent.callLsq, FitEvent.rescaleUnc] ∧
    (emceefitterE model minimize sqrt nfree lc).lcSample.unc
        = ((lsqfitterE model minimize sqrt nfree lc).lcFit.unc).map
            (fun u => u.map (fun x =>
              x * sqrt (lsqfitterE model minimize sqrt nfree lc).chi2red)) ∧
    (dynestyfitterE model minimize sqrt nfree lc).lcSample.unc
        = ((lsqfitterE model minimize sqrt nfree lc).lcFit.unc).map
            (fun u => u.map (fun x =>
              x * sqrt (lsqfitterE model minimize sqrt nfree lc).chi2red)) ∧
    (lmfitterE lc).1.count FitEvent.callLsq = 0 ∧
    (lmfitterE lc).1.count FitEvent.rescaleUnc = 0 := by
  obtain ⟨u, hu⟩ := lsqfitterE_unc_isSome model minimize sqrt nfree lc
  refine ⟨rfl, rfl, ?_, ?_, ?_, ?_⟩
  · unfold emceefitterE rescaleLC lsqDefaultUnc
    simp [hu]
  · unfold dynestyfitterE rescaleLC lsqDefaultUnc
    simp [hu]
  · unfold lmfitterE
    cases lc.unc <;> rfl
  · unfold lmfitterE
    cases lc.unc <;> rfl

/-- Counterexample to C2 as stated: at the concrete light curve with
`flux = [4]` and no uncertainty, the lmfit backend runs to completion with
a trace containing zero `callLsq` and zero `rescaleUnc` events and with
`lc.uncertainty` still unset afterwards, so it neither "first invokes the
least-squares backend" nor "multiplies lc.uncertainty by sqrt(chi2_reduced)
exactly once". -/
theorem lmfitter_never_rescales_cex :
    (lmfitterE (LightCurve.mk [0] [4] none)).1.count FitEvent.callLsq = 0 ∧
    (lmfitterE (LightCurve.mk [0] [4] none)).1.count FitEvent.rescaleUnc = 0 ∧
    ((lmfitterE (LightCurve.mk [0] [4] none)).2.toOption.map
        (fun r => r.lcOut.unc)) = some none ∧
    (0 : Nat) ≠ 1 := by
  refine ⟨rfl, rfl, rfl, ?_⟩
  decide

/-- C7 (amended): when `lc.uncertainty` is unset on entry, the
least-squares, ensemble and nested backends set it to the elementwise
square root of the flux before any fitting (it is the uncertainty in force
when `lsq.minimize` runs; in the ensemble and nested backends it is then
rescaled by `sqrt(chi2_reduced)` before their samplers run), whereas the
lmfit backend leaves `lc.uncertainty` unset and weights its fit by a vector
of ones instead. -/
theorem unc_default_policy (model : List ℚ → List ℚ) (minimize : LightCurve → List ℚ)
    (sqrt : ℚ → ℚ) (nfree : Nat) (lc : LightCurve) (h : lc.unc = none) :
    (lsqfitterE model minimize sqrt nfree lc).lcFit.unc
        = some (lc.flux.map sqrt) ∧
    (emceefitterE model minimize sqrt nfree lc).lcSample.unc
        = some ((lc.flux.map sqrt).map (fun x =>
            x * sqrt (lsqfitterE model minimize sqrt nfree lc).chi2red)) ∧
    (dynestyfitterE model minimize sqrt nfree lc).lcSample.unc
        = some ((lc.flux.map sqrt).map (fun x =>
            x * sqrt (lsqfitterE model minimize sqrt nfree lc).chi2red)) ∧
    ((lmfitterE lc).2.toOption.map (fun r => (r.weights, r.lcOut.unc)))
        = some (List.replicate lc.flux.length 1, none) := by
  obtain ⟨t, f, u⟩ := lc
  cases u with
  | some v => exact absurd h (by simp)
  | none =>
    refine ⟨rfl, rfl, rfl, ?_⟩
    show (some ((List.replicate f.length (1 : ℚ)).map (fun x => 1 / x),
          (none : Option (List ℚ))) : Option (List ℚ × Option (List ℚ)))
        = some (List.replicate f.length 1, none)
    rw [List.map_replicate]
    norm_num

/-- Witness for C7 (amended) at a concrete light curve with unset
uncertainty. -/
theorem unc_default_policy_w :
    (lsqfitterE (fun t => t) (fun _ => [0]) (fun q => q) 0
        (LightCurve.mk [0] [4] none)).lcFit.unc = some [4] ∧
    ((lmfitterE (LightCurve.mk [0] [4] none)).2.toOption.map
        (fun r => (r.weights, r.lcOut.unc))) = some ([1], none) := by
  have h := unc_default_policy (fun t => t) (fun _ => [0]) (fun q => q) 0
    (LightCurve.mk [0] [4] none) rfl
  exact ⟨h.1, h.2.2.2⟩

/-- Counterexample to C7 as stated: for the lmfit backend on the concrete
light curve with `flux = [4]` and unset uncertainty, the weights handed to
the fitting engine are `[1]`, not the elementwise square root of the flux
(`sqrt([4]) = [2]`, and `[1] ≠ [2]`), and `lc.uncertainty` is still unset
(never set to anything, in particular not to `sqrt(flux)`) when the fit
runs. -/
theorem lmfitter_unc_not_sqrtflux_cex :
    ((lmfitterE (LightCurve.mk [0] [4] none)).2.toOption.map
        (fun r => (r.weights, r.lcOut.unc))) = some ([1], none) ∧
    [(4 : ℚ)].map Rat.sqrt = [2] ∧
    ([(1 : ℚ)] ≠ [(2 : ℚ)]) ∧
    ((none : Option (List ℚ)) ≠ some ([(4 : ℚ)].map Rat.sqrt)) := by
  have hs : Rat.sqrt 4 = 2 := by
    rw [show (4 : ℚ) = 2 * 2 by norm_num, Rat.sqrt_eq]
    norm_num
  refine ⟨?_, by simp only [List.map_cons, List.map_nil, hs], by decide, by simp⟩
  show (some ((List.replicate 1 (1 : ℚ)).map (fun x => 1 / x),
        (none : Option (List ℚ))) : Option (List ℚ × Option (List ℚ)))
      = some ([1], none)
  norm_num

/-- C10: the lmfit backend fails with an unbound-local-variable error
before fitting whenever `lc.uncertainty` is set, because the local
`uncertainty` is assigned only in the `lc.unc is None` branch yet read
unconditionally; when the uncertainty is absent it proceeds and weights the
fit with `1/np.ones(len(lc.flux))`, a vector of ones. -/
theorem lmfitter_unboundlocal_spec (lc : LightCurve) :
    (lc.unc ≠ none → (lmfitterE lc).2 = Except.error PyErr.unboundLocal) ∧
    (lc.unc = none →
      (lmfitterE lc).2 = Except.ok (LmFit.mk
        ((List.replicate lc.flux.length (1 : ℚ)).map (fun x => 1 / x)) lc) ∧
      ((List.replicate lc.flux.length (1 : ℚ)).map (fun x => 1 / x))
        = List.replicate lc.flux.length 1) := by
  constructor
  · intro h
    unfold lmfitterE
    cases hu : lc.unc with
    | none => exact absurd hu h
    | some u => rfl
  · intro h
    constructor
    · unfold lmfitterE
      rw [h]
    · rw [List.map_replicate]
      norm_num

/-- Witness for C10: with uncertainty `[1]` set, the lmfit backend raises
`UnboundLocalError`; with it unset, it returns the ones weight vector. -/
theorem lmfitter_unboundlocal_spec_w :
    (lmfitterE (LightCurve.mk [0] [9] (some [1]))).2
        = Except.error PyErr.unboundLocal ∧
    (lmfitterE (LightCurve.mk [0] [9] none)).2
        = Except.ok (LmFit.mk [1] (LightCurve.mk [0] [9] none)) := by
  constructor
  · exact (lmfitter_unboundlocal_spec (LightCurve.mk [0] [9] (some [1]))).1 (by simp)
  · have h := (lmfitter_unboundlocal_spec (LightCurve.mk [0] [9] none)).2 rfl
    rw [h.2] at h
    simpa using h.1

/-! ## Hard-coded sampling dimension of the emcee backend
(`emceefitter` lines 272-273, 278, 295-299). -/

/-- numpy element-wise addition of two 1-D arrays: defined exactly when the
shapes agree (numpy size-1 broadcasting is not modelled; no traced path
relies on it). -/
def npAdd (a b : List ℚ) : Option (List ℚ) :=
  if a.length = b.length then some ((a.zip b).map (fun p => p.1 + p.2)) else none

/-- numpy element-wise multiplication of two 1-D arrays, like `npAdd`. -/
def npMul (a b : List ℚ) : Option (List ℚ) :=
  if a.length = b.length then some ((a.zip b).map (fun p => p.1 * p.2)) else none

/-- One walker draw `freepars + np.array(step_size)*np.random.randn(ndim)`,
with the Gaussian vector `z` supplied externally. -/
def emceeDrawOne (m : Meta) (freepars z : List ℚ) : Option (List ℚ) :=
  (npMul (emceeStepSize m) z).bind (fun s => npAdd freepars s)

/-- C9: the emcee backend's sampling dimension is hard-coded: the step-size
vector is the constant `[5e-3, 5e-3, 1e-1, 5e-3, 1e-2, 1e-2]` whatever the
metadata (in particular whatever configured step-size vector it carries),
`ndim = 6`, the median-extraction loop runs over indices `0..5`, and the
walker draw `freepars + step_size*randn(6)` is well-defined precisely when
the model has exactly six free parameters. -/
theorem emcee_hardcoded_ndim (m mAlt : Meta) (freepars z : List ℚ)
    (hz : z.length = 6) :
    emceeStepSize m = [5/1000, 5/1000, 1/10, 5/1000, 1/100, 1/100] ∧
    emceeStepSize m = emceeStepSize mAlt ∧
    emceeNdim m = 6 ∧
    emceeMedianIndices m = [0, 1, 2, 3, 4, 5] ∧
    ((emceeDrawOne m freepars z).isSome ↔ freepars.length = 6) := by
  refine ⟨rfl, rfl, rfl, rfl, ?_⟩
  have hcond : (emceeStepSize m).length = z.length := by
    rw [hz]
    rfl
  have hlen : (((emceeStepSize m).zip z).map (fun p => p.1 * p.2)).length = 6 := by
    rw [List.length_map, List.length_zip, hz]
    rfl
  unfold emceeDrawOne npMul npAdd
  rw [if_pos hcond, Option.some_bind, hlen]
  by_cases hf : freepars.length = 6
  · rw [if_pos hf]
    simp [hf]
  · rw [if_neg hf]
    simp [hf]

/-- Witness for C9: two metadata records that differ in every field
(including the configured step-size vector) yield the same hard-coded
constants, and a six-parameter draw is well-defined. -/
theorem emcee_hardcoded_ndim_w :
    emceeStepSize (Meta.mk 100 1000 500 [1])
        = [5/1000, 5/1000, 1/10, 5/1000, 1/100, 1/100] ∧
    emceeStepSize (Meta.mk 100 1000 500 [1]) = emceeStepSize (Meta.mk 1 2 3 [9, 9]) ∧
    emceeNdim (Meta.mk 100 1000 500 [1]) = 6 ∧
    emceeMedianIndices (Meta.mk 100 1000 500 [1]) = [0, 1, 2, 3, 4, 5] ∧
    ((emceeDrawOne (Meta.mk 100 1000 500 [1]) [0, 0, 0, 0, 0, 0]
        [0, 0, 0, 0, 0, 0]).isSome ↔
      ([(0 : ℚ), 0, 0, 0, 0, 0]).length = 6) :=
  emcee_hardcoded_ndim (Meta.mk 100 1000 500 [1]) (Meta.mk 1 2 3 [9, 9])
    [0, 0, 0, 0, 0, 0] [0, 0, 0, 0, 0, 0] (by decide)

/-! ## Binned-RMS diagnostic (`computeRMS`, lines 657-685). -/

/-- `np.mean` of a 1-D array, `sum/length` (for the empty array numpy
produces NaN; over `ℚ` the expression is `0/0 = 0`, and no verified claim
touches that case). -/
def listMean (l : List ℚ) : ℚ := l.sum / (l.length : ℚ)

/-- The bin means for one bin size: `nbins = int(np.floor(data.size/binsz))`
bins, `bindata[j] = data[j*binsz:(j+1)*binsz].mean()` — the trailing
partial bin is dropped by the floor. -/
def binMeans (data : List ℚ) (b : Nat) : List ℚ :=
  (List.range (data.length / b)).map (fun j => listMean ((data.drop (j * b)).take b))

/-- `np.arange(1, stop, step=binstep, dtype=int)`: the values `1 + k*step`
for `k < ceil((stop-1)/step)` (numpy's arange length for numeric
arguments); `stop` is rational because the default `maxnbins` is the float
division `npts / 10.`. -/
def arangeFrom1 (stop : ℚ) (step : Nat) : List Nat :=
  (List.range ⌈(stop - 1) / (step : ℚ)⌉₊).map (fun k => 1 + k * step)

structure RMSResult where
  rms : List ℚ
  stderr : List ℚ
  binsz : List Nat
  rmserr : List ℚ
  deriving DecidableEq

/-- `computeRMS(data, maxnbins, binstep)`: bin sizes
`np.arange(1, maxnbins + binstep, step=binstep)` with `maxnbins` defaulting
to `npts/10.`; per size, `rms[i] = sqrt(mean(bindata**2))`,
`rmserr[i] = rms[i]/sqrt(2*nbins[i])`, and
`stderr = (data.std()/sqrt(binsz)) * sqrt(nbins/(nbins-1.))` with
`std = sqrt(mean((x - mean(x))**2))`.  The Python function returns
`(rms, stderr, binsz)` (plus `rmserr` when `isrmserr` is set); all four are
collected in one record here.  `sqrt` abstracts `np.sqrt`. -/
def computeRMS (sqrt : ℚ → ℚ) (data : List ℚ) (maxnbins : Option ℚ)
    (binstep : Nat) : RMSResult :=
  let npts := data.length
  let maxn := maxnbins.getD ((npts : ℚ) / 10)
  let binsz := arangeFrom1 (maxn + (binstep : ℚ)) binstep
  let nbins := binsz.map (fun b => npts / b)
  let rms := binsz.map (fun b =>
    sqrt (listMean ((binMeans data b).map (fun x => x ^ 2))))
  let rmserr := (rms.zip nbins).map (fun p => p.1 / sqrt (2 * (p.2 : ℚ)))
  let sd := sqrt (listMean (data.map (fun x => (x - listMean data) ^ 2)))
  let stderr := (binsz.zip nbins).map (fun p =>
    sd / sqrt ((p.1 : ℚ)) * sqrt ((p.2 : ℚ) / ((p.2 : ℚ) - 1)))
  RMSResult.mk rms stderr binsz rmserr

/-- The candidate bin sizes exactly as the claim words them: "from 1 to
max_bin_count in steps of bin_step", i.e. the values `1 + k*step` that are
at most `max_bin_count`. -/
def specBinSizes (maxn step : Nat) : List Nat :=
  (List.range ((maxn - 1) / step + 1)).map (fun k => 1 + k * step)

lemma computeRMS_binsz_eq (sqrt : ℚ → ℚ) (data : List ℚ) (maxn : ℚ) (step : Nat) :
    (computeRMS sqrt data (some maxn) step).binsz
      = arangeFrom1 (maxn + (step : ℚ)) step := rfl

lemma computeRMS_rms_eq (sqrt : ℚ → ℚ) (data : List ℚ) (maxn : ℚ) (step : Nat) :
    (computeRMS sqrt data (some maxn) step).rms
      = (arangeFrom1 (maxn + (step : ℚ)) step).map (fun b =>
          sqrt (listMean ((binMeans data b).map (fun x => x ^ 2)))) := rfl

lemma mem_arangeFrom1 (stop : ℚ) (step : Nat) (hstep : 0 < step) (b : Nat) :
    b ∈ arangeFrom1 stop step ↔
      ∃ k : Nat, b = 1 + k * step ∧ (b : ℚ) < stop := by
  have hstepQ : (0 : ℚ) < (step : ℚ) := by exact_mod_cast hstep
  unfold arangeFrom1
  rw [List.mem_map]
  constructor
  · rintro ⟨k, hk, rfl⟩
    rw [List.mem_range, Nat.lt_ceil] at hk
    rw [lt_div_iff₀ hstepQ] at hk
    refine ⟨k, rfl, ?_⟩
    push_cast
    linarith
  · rintro ⟨k, rfl, hlt⟩
    refine ⟨k, ?_, rfl⟩
    rw [List.mem_range, Nat.lt_ceil, lt_div_iff₀ hstepQ]
    push_cast at hlt ⊢
    linarith

lemma arange_3_1 : arangeFrom1 ((3 : ℚ) + ((1 : Nat) : ℚ)) 1 = [1, 2, 3] := by
  unfold arangeFrom1
  have hc : ⌈((3 : ℚ) + ((1 : Nat) : ℚ) - 1) / ((1 : Nat) : ℚ)⌉₊ = 3 := by
    rw [Nat.ceil_eq_iff (by norm_num)]
    push_cast
    norm_num
  rw [hc]
  rfl

/-- C6 (amended): `computeRMS` iterates the bin sizes `1, 1 + bin_step,
1 + 2*bin_step, ...` for as long as they are strictly below
`max_bin_count + bin_step` (so the last size can exceed `max_bin_count`
when `bin_step` does not divide evenly — the sizes are not capped at
`max_bin_count`); for each size `b` it forms `floor(n/b)` consecutive bins
(trailing partial bin dropped) and reports the RMS of the bin means and the
white-noise level `std/sqrt(b)*sqrt(nbins/(nbins-1))`; in particular
`computeRMS([1,-1,1,-1,1,-1], max_bin_count=3, bin_step=1)` uses bin sizes
`[1,2,3]` with `rms = 1` at size 1 and `rms = 0` at size 2. -/
theorem computeRMS_binning_spec (sqrt : ℚ → ℚ) (data : List ℚ) (maxn : ℚ)
    (step : Nat) (hstep : 0 < step) (h1 : sqrt 1 = 1) (h0 : sqrt 0 = 0) :
    (∀ b : Nat, b ∈ (computeRMS sqrt data (some maxn) step).binsz ↔
      ∃ k : Nat, b = 1 + k * step ∧ (b : ℚ) < maxn + (step : ℚ)) ∧
    (∀ b : Nat, (binMeans data b).length = data.length / b) ∧
    (computeRMS sqrt [1, -1, 1, -1, 1, -1] (some 3) 1).binsz = [1, 2, 3] ∧
    (computeRMS sqrt [1, -1, 1, -1, 1, -1] (some 3) 1).rms.getD 0 0 = 1 ∧
    (computeRMS sqrt [1, -1, 1, -1, 1, -1] (some 3) 1).rms.getD 1 0 = 0 := by
  refine ⟨?_, ?_, ?_, ?_, ?_⟩
  · intro b
    rw [computeRMS_binsz_eq]
    exact mem_arangeFrom1 (maxn + (step : ℚ)) step hstep b
  · intro b
    simp [binMeans]
  · rw [computeRMS_binsz_eq, arange_3_1]
  · rw [computeRMS_rms_eq, arange_3_1]
    simp only [List.map_cons, List.getD_cons_zero]
    have hE : listMean ((binMeans [1, -1, 1, -1, 1, -1] 1).map (fun x => x ^ 2))
        = 1 := by
      show listMean (([listMean [1], listMean [-1], listMean [1], listMean [-1],
          listMean [1], listMean [-1]]).map (fun x => x ^ 2)) = 1
      simp only [listMean, List.map_cons, List.map_nil, List.sum_cons, List.sum_nil,
        List.length_cons, List.length_nil]
      norm_num
    rw [hE, h1]
  · rw [computeRMS_rms_eq, arange_3_1]
    simp only [List.map_cons, List.getD_cons_succ, List.getD_cons_zero]
    have hE : listMean ((binMeans [1, -1, 1, -1, 1, -1] 2).map (fun x => x ^ 2))
        = 0 := by
      show listMean (([listMean [1, -1], listMean [1, -1],
          listMean [1, -1]]).map (fun x => x ^ 2)) = 0
      simp only [listMean, List.map_cons, List.map_nil, List.sum_cons, List.sum_nil,
        List.length_cons, List.length_nil]
      norm_num
    rw [hE, h0]

/-- Witness for C6 (amended): the concrete instance from the claim,
with `np.sqrt` instantiated by a function satisfying `sqrt 1 = 1` and
`sqrt 0 = 0`. -/
theorem computeRMS_binning_spec_w :
    (computeRMS (fun q => q) [1, -1, 1, -1, 1, -1] (some 3) 1).binsz
        = [1, 2, 3] ∧
    (computeRMS (fun q => q) [1, -1, 1, -1, 1, -1] (some 3) 1).rms.getD 0 0 = 1 ∧
    (computeRMS (fun q => q) [1, -1, 1, -1, 1, -1] (some 3) 1).rms.getD 1 0 = 0 := by
  have h := computeRMS_binning_spec (fun q => q) [1, -1, 1, -1, 1, -1] 3 1
    (by decide) rfl rfl
  exact ⟨h.2.2.1, h.2.2.2.1, h.2.2.2.2⟩

/-- Counterexample to C6 as stated: with `max_bin_count = 4` and
`bin_step = 2`, the code's bin sizes are `np.arange(1, 6, 2) = [1, 3, 5]`,
which includes the size `5 > 4`, whereas bin sizes "from 1 to
max_bin_count in steps of bin_step" would be `[1, 3]`. -/
theorem computeRMS_binsz_cex :
    (computeRMS (fun q => q) [1, -1, 1, -1, 1, -1] (some 4) 2).binsz
        = [1, 3, 5] ∧
    specBinSizes 4 2 = [1, 3] ∧
    5 ∈ (computeRMS (fun q => q) [1, -1, 1, -1, 1, -1] (some 4) 2).binsz ∧
    ¬ (5 : Nat) ≤ 4 := by
  have harange : arangeFrom1 ((4 : ℚ) + ((2 : Nat) : ℚ)) 2 = [1, 3, 5] := by
    unfold arangeFrom1
    have hc : ⌈((4 : ℚ) + ((2 : Nat) : ℚ) - 1) / ((2 : Nat) : ℚ)⌉₊ = 3 := by
      rw [Nat.ceil_eq_iff (by norm_num)]
      push_cast
      norm_num
    rw [hc]
    rfl
  have hb : (computeRMS (fun q : ℚ => q) [1, -1, 1, -1, 1, -1] (some 4) 2).binsz
      = [1, 3, 5] := by
    rw [computeRMS_binsz_eq, harange]
  refine ⟨hb, by decide, ?_, by decide⟩
  rw [hb]
  decide

/-! ## Parameter flattening (`lsqfitter` lines 51-80; the same loop is
repeated in `emceefitter` and `dynestyfitter`) and its validation. -/

inductive Role
  | free : Role
  | fixed : Role
  | independent : Role
  deriving DecidableEq

/-- Float bound values including the unbounded defaults `-np.inf` and
`np.inf`. -/
inductive XQ
  | ninf : XQ
  | pinf : XQ
  | fin : ℚ → XQ
  deriving DecidableEq

/-- Modelled from the spec: a positional bound field of a raw parameter
tuple, which is either a number or malformed.  The validation that inspects
these lives in `parameters.py` (imported by the fitters but not present
under `src/`). -/
inductive RawField
  | num : ℚ → RawField
  | malformed : RawField
  deriving DecidableEq

/-- A raw parameter tuple `(value, role, bound fields...)` keyed by name:
`param[0]` is the (possibly missing) numeric value, `param[1]` the role
string, and `param[2:]` the positional bound fields, so the source's
`len(param) > 3` test reads "at least two positional bound fields". -/
structure RawParam where
  name : String
  value : Option ℚ
  role : Role
  posBounds : List RawField
  deriving DecidableEq

inductive FitCfgError
  | configurationError : FitCfgError
  deriving DecidableEq

/-- Modelled from the spec: the parameter validation of the `Parameters`
class (`parameters.py`, not present under `src/`).  Spec section 4.1:
flattening "Fails with ConfigurationError if a parameter name is Free but
lacks a numeric value, or if more than 3 positional bound fields are
malformed." -/
def checkRawParam (p : RawParam) : Except FitCfgError RawParam :=
  if p.role = Role.free ∧ p.value = none then
    Except.error FitCfgError.configurationError
  else if 3 < (p.posBounds.filter (fun f => decide (f = RawField.malformed))).length then
    Except.error FitCfgError.configurationError
  else Except.ok p

/-- Validate every raw parameter in order, propagating the first error. -/
def checkAll : List RawParam → Except FitCfgError (List RawParam)
  | [] => Except.ok []
  | p :: ps =>
    match checkRawParam p with
    | Except.error e => Except.error e
    | Except.ok q =>
      match checkAll ps with
      | Except.error e => Except.error e
      | Except.ok qs => Except.ok (q :: qs)

/-- The flat projection the fitters build: free names, free values, bound
vectors and the independent-variable mapping. -/
structure FlatView where
  freenames : List String
  freepars : List ℚ
  pmin : List XQ
  pmax : List XQ
  indep : List (String × ℚ)
  deriving DecidableEq

/-- The numeric value of a well-formed positional bound field (the
validated inputs reaching the source loop always carry numbers where the
loop reads `param[2]`/`param[3]`). -/
def fieldQ : RawField → ℚ
  | RawField.num q => q
  | RawField.malformed => 0

/-- One iteration of the source's flattening loop: a free parameter
contributes its name, value and either its two positional bounds (when
`len(param) > 3`) or the defaults `(-np.inf, np.inf)`; an independent
parameter goes to `indep_vars`; a fixed parameter is skipped (the source's
handling is commented out). -/
def flattenStep (acc : FlatView) (p : RawParam) : FlatView :=
  match p.role with
  | Role.free =>
    let bounds :=
      if 1 < p.posBounds.length then
        (XQ.fin (fieldQ (p.posBounds.getD 0 RawField.malformed)),
         XQ.fin (fieldQ (p.posBounds.getD 1 RawField.malformed)))
      else (XQ.ninf, XQ.pinf)
    FlatView.mk (acc.freenames ++ [p.name]) (acc.freepars ++ [p.value.getD 0])
      (acc.pmin ++ [bounds.1]) (acc.pmax ++ [bounds.2]) acc.indep
  | Role.fixed => acc
  | Role.independent =>
    FlatView.mk acc.freenames acc.freepars acc.pmin acc.pmax
      (acc.indep ++ [(p.name, p.value.getD 0)])

/-- The flattening loop over all parameters. -/
def flattenParams (ps : List RawParam) : FlatView :=
  ps.foldl flattenStep (FlatView.mk [] [] [] [] [])

/-- Validation followed by flattening. -/
def flattenChecked (ps : List RawParam) : Except FitCfgError FlatView :=
  match checkAll ps with
  | Except.error e => Except.error e
  | Except.ok qs => Except.ok (flattenParams qs)

/-- C8: the parameter-flattening step fails with `ConfigurationError` when
a Free parameter lacks a numeric value or when more than 3 positional bound
fields are malformed, and for a well-formed Free parameter with no bounds
it succeeds and assigns the default bounds `(-inf, +inf)`. -/
theorem flatten_config_error_spec (p : RawParam) (ps : List RawParam) :
    (p.role = Role.free → p.value = none →
      flattenChecked (p :: ps) = Except.error FitCfgError.configurationError) ∧
    (3 < (p.posBounds.filter (fun f => decide (f = RawField.malformed))).length →
      flattenChecked (p :: ps) = Except.error FitCfgError.configurationError) ∧
    (∀ nm : String, ∀ v : ℚ,
      flattenChecked [RawParam.mk nm (some v) Role.free []]
        = Except.ok (FlatView.mk [nm] [v] [XQ.ninf] [XQ.pinf] [])) := by
  refine ⟨?_, ?_, ?_⟩
  · intro hrole hval
    have hc : checkRawParam p = Except.error FitCfgError.configurationError := by
      unfold checkRawParam
      rw [if_pos ⟨hrole, hval⟩]
    unfold flattenChecked checkAll
    rw [hc]
  · intro hmal
    have hc : checkRawParam p = Except.error FitCfgError.configurationError := by
      unfold checkRawParam
      by_cases hfree : p.role = Role.free ∧ p.value = none
      · rw [if_pos hfree]
      · rw [if_neg hfree, if_pos hmal]
    unfold flattenChecked checkAll
    rw [hc]
  · intro nm v
    have hc : checkRawParam (RawParam.mk nm (some v) Role.free [])
        = Except.ok (RawParam.mk nm (some v) Role.free []) := by
      unfold checkRawParam
      rw [if_neg (by simp), if_neg (by simp)]
    unfold flattenChecked checkAll
    rw [hc]
    rfl

/-- Witness for C8: a Free parameter with no value fails, a parameter with
four malformed positional bound fields fails, and a well-formed boundless
Free parameter flattens to the default bounds. -/
theorem flatten_config_error_spec_w :
    flattenChecked [RawParam.mk "a" none Role.free []]
        = Except.error FitCfgError.configurationError ∧
    flattenChecked [RawParam.mk "b" (some 1) Role.free
        [RawField.malformed, RawField.malformed, RawField.malformed,
         RawField.malformed]]
        = Except.error FitCfgError.configurationError ∧
    flattenChecked [RawParam.mk "c" (some 2) Role.free []]
        = Except.ok (FlatView.mk ["c"] [2] [XQ.ninf] [XQ.pinf] []) :=
  ⟨(flatten_config_error_spec (RawParam.mk "a" none Role.free []) []).1 rfl rfl,
   (flatten_config_error_spec (RawParam.mk "b" (some 1) Role.free
      [RawField.malformed, RawField.malformed, RawField.malformed,
       RawField.malformed]) []).2.1 (by decide),
   (flatten_config_error_spec (RawParam.mk "c" (some 2) Role.free []) []).2.2 "c" 2⟩

end EurekaS5
